import Mathlib

/-!
Shallow embedding of the feco3 .FEC-file parser core (crates/feco3/src),
together with theorems checking the natural-language specification
against it.  Rust strings are Lean `String`s, vectors are `List`s,
fallible functions return `Except`, and the process-wide schema cache is
threaded as explicit state.  Functions keep their Rust names where Lean
allows it.
-/

deriving instance DecidableEq for Except

namespace Feco3

/-- Whitespace predicate used by the model of Rust's `str::trim`
(identical to Rust on ASCII input). -/
def isWs (c : Char) : Bool := c.isWhitespace

/-- Model of Rust's `str::trim`: strip leading and trailing whitespace. -/
def strTrim (s : String) : String :=
  ⟨(s.data.dropWhile isWs).rdropWhile isWs⟩

/-- Model of Rust's `str::split(sep)` on a single character: splitting
an empty string gives one empty field, and every occurrence of `sep`
starts a new field. -/
def splitOnChar (sep : Char) : List Char → List (List Char)
  | [] => [[]]
  | c :: rest =>
    if c = sep then [] :: splitOnChar sep rest
    else
      match splitOnChar sep rest with
      | [] => [[c]]
      | h :: t => (c :: h) :: t

/-- String-level wrapper of `splitOnChar`. -/
def splitStr (sep : Char) (s : String) : List String :=
  (splitOnChar sep s.data).map (fun l => ⟨l⟩)

/-- Model of `byte_slice_contains` from header.rs (substring search),
stated on unicode scalars: an ASCII needle occurs among the UTF-8 bytes
iff it occurs among the scalars. -/
def byte_slice_contains (haystack needle : List Char) : Bool :=
  haystack.tails.any (fun t => needle.isPrefixOf t)

/-- Numeric value of a digit string (most significant first). -/
def digitsVal (l : List Char) : Nat :=
  l.foldl (fun a c => 10 * a + (c.toNat - 48)) 0

/-- True when `l` is a nonempty run of ASCII digits. -/
def allDigits (l : List Char) : Bool :=
  !l.isEmpty && l.all (fun c => c.isDigit)

/-- Modelled from the spec: Rust `i64::from_str` (optional sign, digits,
within the i64 range); the implementation lives in the part of record.rs
missing from this snapshot. -/
def parseI64Core (neg : Bool) (ds : List Char) : Option Int :=
  if allDigits ds then
    let v : Int := if neg then -(digitsVal ds : Int) else (digitsVal ds : Int)
    if -(2 ^ 63) ≤ v ∧ v < 2 ^ 63 then some v else none
  else none

/-- Modelled from the spec: integer parsing accepts an optional leading
sign exactly as Rust's natural parse does. -/
def parseI64 (s : String) : Option Int :=
  match s.data with
  | '-' :: rest => parseI64Core true rest
  | '+' :: rest => parseI64Core false rest
  | ds => parseI64Core false ds

/-- Modelled from the spec: the mantissa of a float literal, decimal
digits with an optional point. -/
def parseDecimalMantissa (l : List Char) : Option Rat :=
  match splitOnChar '.' l with
  | [ip] => if allDigits ip then some ((digitsVal ip : Nat) : Rat) else none
  | [ip, fp] =>
    if (allDigits ip || ip.isEmpty) && (allDigits fp || fp.isEmpty)
        && !(ip.isEmpty && fp.isEmpty) then
      some (((digitsVal ip : Nat) : Rat)
        + ((digitsVal fp : Nat) : Rat) / ((10 : Rat) ^ fp.length))
    else none
  | _ => none

/-- Modelled from the spec: float parsing accepts decimal and
exponential forms; the numeric value is modelled as a rational. -/
def parseFloat (s : String) : Option Rat :=
  let signed : List Char → Option Rat := fun body =>
    let go : Bool → List Char → Option Rat := fun neg l =>
      let withExp : Option Rat :=
        match l.span (fun c => !(c = 'e' || c = 'E')) with
        | (mant, []) => parseDecimalMantissa mant
        | (mant, _ :: expPart) =>
          let expVal : Option Int :=
            match expPart with
            | '-' :: ds => if allDigits ds then some (-(digitsVal ds : Int)) else none
            | '+' :: ds => if allDigits ds then some ((digitsVal ds : Int)) else none
            | ds => if allDigits ds then some ((digitsVal ds : Int)) else none
          match parseDecimalMantissa mant, expVal with
          | some m, some e => some (m * (10 : Rat) ^ e)
          | _, _ => none
      withExp.map (fun q => if neg then -q else q)
    match body with
    | '-' :: rest => go true rest
    | '+' :: rest => go false rest
    | ds => go false ds
  signed s.data

/-- Civil date, the payload of `chrono::NaiveDate` values the parser
builds. -/
structure Date where
  year : Nat
  month : Nat
  day : Nat
deriving DecidableEq

/-- Gregorian leap-year rule. -/
def isLeapYear (y : Nat) : Bool :=
  y % 4 = 0 && (y % 100 ≠ 0 || y % 400 = 0)

/-- Days in a civil month. -/
def daysInMonth (y m : Nat) : Nat :=
  if m = 2 then (if isLeapYear y then 29 else 28)
  else if m = 4 || m = 6 || m = 9 || m = 11 then 30
  else 31

/-- Modelled from the spec: date parsing expects exactly `YYYYMMDD` and
checks civil validity (as `chrono`'s `%Y%m%d` parse does). -/
def parseDate (s : String) : Option Date :=
  let ds := s.data
  if ds.length = 8 && ds.all (fun c => c.isDigit) then
    let y := digitsVal (ds.take 4)
    let m := digitsVal ((ds.drop 4).take 2)
    let d := digitsVal (ds.drop 6)
    if 1 ≤ m && m ≤ 12 && 1 ≤ d && d ≤ daysInMonth y m then
      some ⟨y, m, d⟩
    else none
  else none

/-- Modelled from the spec: boolean parsing accepts only the lowercase
tokens true and false (Rust `bool::from_str`). -/
def parseBool (s : String) : Option Bool :=
  if s = "true" then some true
  else if s = "false" then some false
  else none

/-- ValueType from record.rs: the tag enum parallel to `Value`. -/
inductive ValueType where
  | string
  | integer
  | float
  | date
  | boolean
deriving DecidableEq

/-- Value from record.rs (the revision parse.rs is written against):
each variant holds an optional payload; `none` is the absent variant. -/
inductive Value where
  | str (s : Option String)
  | int (i : Option Int)
  | flt (q : Option Rat)
  | date (d : Option Date)
  | bool (b : Option Bool)
deriving DecidableEq

/-- The absent variant of a target type (empty payload). -/
def ValueType.absent : ValueType → Value
  | .string => .str none
  | .integer => .int none
  | .float => .flt none
  | .date => .date none
  | .boolean => .bool none

/-- Zero-pad a numeral to a given width. -/
def padZeros (width : Nat) (n : Nat) : String :=
  let s := toString n
  ⟨List.replicate (width - s.length) '0'⟩ ++ s

/-- Render a date as `YYYY-MM-DD` (chrono's `%Y-%m-%d`). -/
def Date.display (d : Date) : String :=
  padZeros 4 d.year ++ "-" ++ padZeros 2 d.month ++ "-" ++ padZeros 2 d.day

/-- String rendering of a Value for downstream text encoders (the
`Display` impl in record.rs): a present value prints its natural lexical
form, an absent value prints the empty string.  The float form is
rendered from the rational model. -/
def Value.display : Value → String
  | .str (some s) => s
  | .int (some i) => toString i
  | .flt (some q) => toString q
  | .date (some d) => d.display
  | .bool (some b) => toString b
  | _ => ""

/-- Modelled from the spec: `ValueType::parse_to_value`, the only
string-to-typed coercion site; its implementation is in the revision of
record.rs missing from this snapshot.  Contract (spec section 3 and
4.1): an absent or whitespace-only raw yields the absent variant of the
target type; otherwise the raw is trimmed and parsed with the
conventional syntax for the target; failure yields an error carrying the
offending raw string. -/
def ValueType.parse_to_value (t : ValueType) (raw : Option String) : Except String Value :=
  match raw with
  | none => .ok t.absent
  | some s0 =>
    let s := strTrim s0
    if s = "" then .ok t.absent
    else
      match t with
      | .string => .ok (.str (some s))
      | .integer =>
        match parseI64 s with
        | some i => .ok (.int (some i))
        | none => .error ("invalid integer: " ++ s)
      | .float =>
        match parseFloat s with
        | some q => .ok (.flt (some q))
        | none => .error ("invalid float: " ++ s)
      | .date =>
        match parseDate s with
        | some d => .ok (.date (some d))
        | none => .error ("invalid date: " ++ s)
      | .boolean =>
        match parseBool s with
        | some b => .ok (.bool (some b))
        | none => .error ("invalid boolean: " ++ s)

/-- FieldSchema from record.rs. -/
structure FieldSchema where
  name : String
  typ : ValueType
deriving DecidableEq

/-- RecordSchema from record.rs.  Note: Lean's derived equality here is
structural; the Rust `PartialEq`/`Hash` impls key off `code` alone and
are modelled separately as `schemaKeyEq`. -/
structure RecordSchema where
  code : String
  fields : List FieldSchema
deriving DecidableEq

/-- The Rust `PartialEq for RecordSchema` (record.rs lines 87-91):
equality uses only the code and ignores the field list. -/
def schemaKeyEq (a b : RecordSchema) : Bool := a.code == b.code

/-- Record from record.rs: a parsed line.  `line_code` is the first raw
field (called `record_type` in one revision of parse.rs). -/
structure Record where
  line_code : String
  schema : RecordSchema
  values : List Value
deriving DecidableEq

/-- `Record::get_value`: position of the first field with the given name
in the schema, then the value at that index (which may be missing when
the values list is shorter). -/
def Record.get_value (r : Record) (field_name : String) : Option Value :=
  (r.schema.fields.findIdx? (fun f => f.name == field_name)).bind
    (fun i => r.values.get? i)

/-- The crate error enum from lib.rs. -/
inductive Error where
  | HeaderParseError (msg : String)
  | CoverParseError (msg : String)
  | RecordParseError (msg : String)
  | SchemaError (version : String) (line_code : String)
  | IoError (msg : String)
deriving DecidableEq

/-- A compiled case-insensitive regex, abstracted to its matching
function (`Regex::is_match` is the only operation the lookup uses). -/
abbrev Pattern := String → Bool

/-- The mappings table shape from lookup.rs: an ordered list of
(line-code pattern, ordered list of (version pattern, field names)). -/
abbrev Mappings := List (Pattern × List (Pattern × List String))

/-- A field schema with the String type, as `do_lookup` builds them
(the TODO hook for types.json is not implemented). -/
def mkStringField (name : String) : FieldSchema :=
  { name := name, typ := .string }

/-- The inner loop of `do_lookup` (lookup.rs lines 34-55): scan the
version entries of a matched line-code pattern in order; on the first
version match, build the schema from the field names, skipping the
first name (`fields.iter().skip(1)`) and assigning each the String
type. -/
def do_lookup_inner (line_code version : String) :
    List (Pattern × List String) → Option RecordSchema
  | [] => none
  | (vpat, fields) :: rest =>
    if vpat version then
      some { code := line_code, fields := (fields.drop 1).map mkStringField }
    else do_lookup_inner line_code version rest

/-- The lookup-miss message from lookup.rs lines 57-60. -/
def lookupErrMsg (version line_code : String) : String :=
  "Couldn\x27t find schema for form type: " ++ line_code ++ ", version: " ++ version

/-- `do_lookup` from lookup.rs lines 23-61: iterate the mappings in
order; for each line-code pattern matching the line code, scan its
version entries; the first doubly-matching entry wins; when an outer
match has no version match the outer iteration continues. -/
def do_lookup (m : Mappings) (version line_code : String) :
    Except String RecordSchema :=
  match m with
  | [] => .error (lookupErrMsg version line_code)
  | (lcpat, versions) :: rest =>
    if lcpat line_code then
      match do_lookup_inner line_code version versions with
      | some s => .ok s
      | none => do_lookup rest version line_code
    else do_lookup rest version line_code

/-- The spec-described inner search (section 4.2 step 1-2): the names of
the first version entry matching the version, without transformation. -/
def specFirstMatchInner (version : String) :
    List (Pattern × List String) → Option (List String)
  | [] => none
  | (vpat, fields) :: rest =>
    if vpat version then some fields
    else specFirstMatchInner version rest

/-- The spec-described search (section 4.2 step 1-2): field names of the
first (line-code pattern, version pattern) entry matching both inputs,
in document order. -/
def specFirstMatch (m : Mappings) (version line_code : String) :
    Option (List String) :=
  match m with
  | [] => none
  | (lcpat, versions) :: rest =>
    if lcpat line_code then
      match specFirstMatchInner version versions with
      | some fields => some fields
      | none => specFirstMatch rest version line_code
    else specFirstMatch rest version line_code

/-- The process-wide schema cache from lookup.rs, modelled as explicit
state: an association list from (version, line code) keys to the
schemas vended for them. -/
abbrev Cache := List ((String × String) × RecordSchema)

/-- Lookup in the cache model (`CACHE.lock().unwrap().get(&key)`). -/
def cacheGet (σ : Cache) (key : String × String) : Option RecordSchema :=
  (σ.find? (fun e => e.1 == key)).map (fun e => e.2)

/-- `lookup_schema` from lookup.rs lines 13-21: return the cached schema
for the exact (version, line code) key when present, otherwise run
`do_lookup` and cache a successful result.  The state threading makes
the cache mutation explicit; the execution model is sequential. -/
def lookup_schema (m : Mappings) (σ : Cache) (version line_code : String) :
    Except String RecordSchema × Cache :=
  match cacheGet σ (version, line_code) with
  | some s => (.ok s, σ)
  | none =>
    match do_lookup m version line_code with
    | .ok s => (.ok s, σ ++ [((version, line_code), s)])
    | .error e => (.error e, σ)

/-- Run a sequence of lookups for the given keys, keeping only the final
cache state. -/
def runLookups (m : Mappings) (σ : Cache) : List (String × String) → Cache
  | [] => σ
  | k :: ks => runLookups m (lookup_schema m σ k.1 k.2).2 ks

/-- Outcome of running a Rust function that may return a value, return
an error, or panic (an `assert!` failure). -/
inductive PResult (α : Type) where
  | ok (a : α)
  | err (e : Error)
  | panicked
deriving DecidableEq

/-- The caller-side preprocessing in `LiteralLineParser::parse_values`
(parse.rs lines 58-61): trim the raw value and map an empty result to an
absent raw. -/
def literalPreprocess (raw : String) : Option String :=
  if strTrim raw = "" then none else some (strTrim raw)

/-- The loop of `LiteralLineParser::parse_values` (parse.rs lines
54-64): each raw value takes the next schema field or fails with "too
many values"; the preprocessed raw is coerced with the field's type and
a coercion failure propagates as a `RecordParseError`. -/
def literalLoop : List FieldSchema → List String → Except Error (List Value)
  | _, [] => .ok []
  | [], _ :: _ => .error (.RecordParseError "too many values")
  | f :: fs, raw :: rest =>
    match f.typ.parse_to_value (literalPreprocess raw) with
    | .error e => .error (.RecordParseError e)
    | .ok v =>
      match literalLoop fs rest with
      | .error e => .error e
      | .ok vs => .ok (v :: vs)

/-- `LiteralLineParser::parse_values` (parse.rs lines 46-71): run the
loop; unused trailing schema fields are only logged. -/
def literalParseValues (schema : RecordSchema) (line : List String) :
    Except Error (List Value) :=
  literalLoop schema.fields line

/-- Per-field handling of `CoercingLineParser::parse_values` (parse.rs
lines 103-106): attempt the coercion; on failure fall back to parsing
the absent raw. -/
def coercingField (t : ValueType) (raw : String) : Except String Value :=
  match t.parse_to_value (some raw) with
  | .ok v => .ok v
  | .error _ => t.parse_to_value none

/-- The loop of `CoercingLineParser::parse_values` (parse.rs lines
94-108): each raw takes the next schema field when one remains and is
coerced leniently; a raw beyond the schema's field list is pushed as a
String value.  Returns the values together with the unconsumed schema
fields. -/
def coercingLoop : List FieldSchema → List String →
    Except String (List Value × List FieldSchema)
  | fs, [] => .ok ([], fs)
  | [], raw :: rest =>
    match coercingLoop [] rest with
    | .error e => .error e
    | .ok (vs, leftover) => .ok (Value.str (some raw) :: vs, leftover)
  | f :: fs, raw :: rest =>
    match coercingField f.typ raw with
    | .error e => .error e
    | .ok v =>
      match coercingLoop fs rest with
      | .error e => .error e
      | .ok (vs, leftover) => .ok (v :: vs, leftover)

/-- The padding pass of `CoercingLineParser::parse_values` (parse.rs
lines 109-113): each not-seen schema field contributes the absent
variant of its type. -/
def coercingPad (fs : List FieldSchema) : Except String (List Value) :=
  match fs with
  | [] => .ok []
  | f :: rest =>
    match f.typ.parse_to_value none with
    | .error e => .error e
    | .ok v =>
      match coercingPad rest with
      | .error e => .error e
      | .ok vs => .ok (v :: vs)

/-- The value computation of `CoercingLineParser::parse_values` before
its final assertion: loop then padding. -/
def coercingParseValuesE (schema : RecordSchema) (line : List String) :
    Except String (List Value) :=
  match coercingLoop schema.fields line with
  | .error e => .error e
  | .ok (vs, leftover) =>
    match coercingPad leftover with
    | .error e => .error e
    | .ok pad => .ok (vs ++ pad)

/-- `CoercingLineParser::parse_values` (parse.rs lines 87-116) with its
final `assert!(values.len() == schema.fields.len())` modelled as the
panic outcome. -/
def coercingParseValues (schema : RecordSchema) (line : List String) :
    PResult (List Value) :=
  match coercingParseValuesE schema line with
  | .error e => .err (.RecordParseError e)
  | .ok vs =>
    if vs.length = schema.fields.length then .ok vs else .panicked

/-- `LineParser::parse_line` for the literal policy (parse.rs lines
22-35): the first raw field is the line code, the schema is resolved for
(version, line code), and the remaining fields are parsed against it.
Schema resolution is the pure `do_lookup`; the cache changes identity,
never values. -/
def literalParseLine (m : Mappings) (version : String) (line : List String) :
    Except Error Record :=
  match line with
  | [] => .error (.RecordParseError "No form name")
  | code :: rest =>
    match do_lookup m version code with
    | .error _ => .error (.SchemaError version code)
    | .ok schema =>
      match literalParseValues schema rest with
      | .error e => .error e
      | .ok vs => .ok { line_code := code, schema := schema, values := vs }

/-- Header from header.rs. -/
structure Header where
  fec_version : String
  software_name : String
  software_version : Option String
  report_id : Option String
  report_number : Option String
deriving DecidableEq

/-- `Header::default()`: all fields empty. -/
def Header.init : Header :=
  { fec_version := "", software_name := "", software_version := none,
    report_id := none, report_number := none }

/-- Sep from csv.rs: the field delimiter, comma or the 0x1C unit
separator. -/
inductive Sep where
  | comma
  | ascii28
deriving DecidableEq

/-- `Sep::to_byte` (csv.rs lines 18-23). -/
def Sep.to_byte : Sep → Nat
  | .comma => 44
  | .ascii28 => 28

/-- The character whose UTF-8 encoding is the separator byte. -/
def Sep.toChar (s : Sep) : Char := Char.ofNat s.to_byte

/-- `Sep::detect` (csv.rs lines 27-33): if the raw line contains 0x1C,
the separator is the unit separator, else the comma.  Stated on unicode
scalars: the ASCII byte 0x1C occurs among the UTF-8 bytes iff the scalar
U+001C occurs. -/
def Sep.detect (line : List Char) : Sep :=
  if line.contains (Char.ofNat 28) then .ascii28 else .comma

/-- HeaderParsing from header.rs. -/
structure HeaderParsing where
  header : Header
  sep : Sep
deriving DecidableEq

/-- `parse_raw_field_val` from record.rs lines 132-159 (the revision in
this snapshot, which header parsing goes through): coerce one raw field
under an optional schema field, defaulting to the String type, without
trimming. -/
def parse_raw_field_val (raw : String) (fs : Option FieldSchema) :
    Except String Value :=
  let f := fs.getD { name := "extra", typ := .string }
  match f.typ with
  | .string => .ok (.str (some raw))
  | .integer =>
    match parseI64 raw with
    | some i => .ok (.int (some i))
    | none => .error ("invalid integer: " ++ raw)
  | .float =>
    match parseFloat raw with
    | some q => .ok (.flt (some q))
    | none => .error ("invalid float: " ++ raw)
  | .date =>
    match parseDate raw with
    | some d => .ok (.date (some d))
    | none => .error ("invalid date: " ++ raw)
  | .boolean =>
    match parseBool raw with
    | some b => .ok (.bool (some b))
    | none => .error ("invalid boolean: " ++ raw)

/-- The loop of `record::parse` (record.rs lines 119-121): pair each
remaining raw value with the next schema field. -/
def recordParseLoop : List FieldSchema → List String → Except String (List Value)
  | _, [] => .ok []
  | fs, raw :: rest =>
    match parse_raw_field_val raw fs.head? with
    | .error e => .error e
    | .ok v =>
      match recordParseLoop (fs.drop 1) rest with
      | .error e => .error e
      | .ok vs => .ok (v :: vs)

/-- `record::parse` from record.rs lines 107-130: take the first raw
field as the line code, resolve the schema, push the line code itself as
a String value, then pair the remaining raw fields with the schema
fields (extra schema fields are only logged). -/
def record_parse (m : Mappings) (fec_version : String) (raw : List String) :
    Except String Record :=
  match raw with
  | [] => .error "No form name"
  | line_code :: rest =>
    match do_lookup m fec_version line_code with
    | .error e => .error e
    | .ok schema =>
      match parse_raw_field_val line_code none with
      | .error e => .error e
      | .ok first =>
        match recordParseLoop schema.fields rest with
        | .error e => .error e
        | .ok vs =>
          .ok { line_code := line_code, schema := schema, values := first :: vs }

/-- The split of the modern header line (header.rs lines 179-183): the
raw first line split on the detected separator byte. -/
def nonlegacyParts (line : String) : List String :=
  splitStr (Sep.detect line.data).toChar line

/-- The version extraction of `parse_nonlegacy_header` (header.rs lines
185-196): fewer than two parts is an error; when the part at index 1
equals FEC the version is the part at index 2 (fewer than three parts is
an error), otherwise the version is the part at index 1. -/
def nonlegacyVersion (parts : List String) : Except String String :=
  match parts with
  | _ :: p1 :: rest =>
    if p1 = "FEC" then
      match rest with
      | p2 :: _ => .ok p2
      | [] => .error "less than 3 parts in header"
    else .ok p1
  | _ => .error "less than 2 parts in header"

/-- The argument `parse_nonlegacy_header` hands to the line parser
(header.rs line 197): the whole split line, beginning at index 0. -/
def nonlegacyRecordArg (line : String) : List String :=
  nonlegacyParts line

/-- `parse_nonlegacy_header` from header.rs lines 176-207: detect the
separator on the raw line, split on it, extract the version, feed the
parts through the line parser against the schema resolved for the
version, and read the named header fields from the record. -/
def parse_nonlegacy_header (m : Mappings) (line : String) :
    Except String HeaderParsing :=
  let sep := Sep.detect line.data
  let parts := nonlegacyParts line
  match nonlegacyVersion parts with
  | .error e => .error e
  | .ok version =>
    match record_parse m version (nonlegacyRecordArg line) with
    | .error e => .error e
    | .ok r =>
      match r.get_value "soft_name" with
      | none => .error "missing soft_name"
      | some sn =>
        .ok { header :=
                { fec_version := version,
                  software_name := sn.display,
                  software_version := (r.get_value "soft_ver").map Value.display,
                  report_id := (r.get_value "report_id").map Value.display,
                  report_number := (r.get_value "report_number").map Value.display },
              sep := sep }

/-- The error message of `parse_legacy_kv` (header.rs line 160); the
Rust `{:?}` debug form of the line is modelled as plain quoting. -/
def legacyKvErrMsg (line : String) : String :=
  "more than one \x27=\x27 in header k=v line: \x22" ++ line ++ "\x22"

/-- `parse_legacy_kv` from header.rs lines 157-165: split the line on
the equals sign; anything except exactly two parts is an error (whose
message claims more than one equals sign even when there were zero);
otherwise return the trimmed key and value. -/
def parse_legacy_kv (line : String) : Except String (String × String) :=
  match splitStr '=' line with
  | [k, v] => .ok (strTrim k, strTrim v)
  | _ => .error (legacyKvErrMsg line)

/-- True when the line contains the legacy header terminator marker
(`byte_slice_contains(&line_bytes, b"/*")`). -/
def isLegacyTerminator (line : String) : Bool :=
  byte_slice_contains line.data "/*".data

/-- Model of Rust `str::to_lowercase`, character-wise (identical on
ASCII input, which is all the legacy keys use). -/
def strToLower (s : String) : String := ⟨s.data.map Char.toLower⟩

/-- True when the lowercased line contains schedule_counts (header.rs
line 130). -/
def isScheduleCounts (line : String) : Bool :=
  byte_slice_contains (strToLower line).data "schedule_counts".data

/-- One key-value update of the legacy header loop (header.rs lines
134-139): recognized lowercased keys set the version, software name and
software version; other keys are ignored. -/
def legacyApplyKv (h : Header) (kv : String × String) : Header :=
  if strToLower kv.1 = "fec_ver_#" then { h with fec_version := kv.2 }
  else if strToLower kv.1 = "soft_name" then { h with software_name := kv.2 }
  else if strToLower kv.1 = "soft_ver#" then { h with software_version := some kv.2 }
  else h

/-- The loop of `parse_legacy_header` (header.rs lines 118-140): read
lines until a terminator; running out of lines is an unexpected end of
file; more than 100 non-terminator lines is an error; schedule-counts
lines are skipped; every other line must parse as a key-value pair,
whose recognized keys update the header. -/
def legacyLoop (h : Header) (num_lines : Nat) : List String → Except String Header
  | [] => .error "unexpected end of file"
  | line :: rest =>
    if isLegacyTerminator line then .ok h
    else if num_lines + 1 > 100 then .error "more than 100 lines in header"
    else if isScheduleCounts line then legacyLoop h (num_lines + 1) rest
    else
      match parse_legacy_kv line with
      | .error e => .error e
      | .ok kv => legacyLoop (legacyApplyKv h kv) (num_lines + 1) rest

/-- `parse_legacy_header` from header.rs lines 108-155: run the loop
from the default header over the lines after the opening marker, then
require the three mandatory fields; the legacy dialect always implies
the comma separator. -/
def parse_legacy_header (lines : List String) : Except String HeaderParsing :=
  match legacyLoop Header.init 0 lines with
  | .error e => .error e
  | .ok h =>
    if h.fec_version = "" then .error "missing FEC_Ver_#"
    else if h.software_name = "" then .error "missing Soft_Name"
    else if h.software_version.isNone then .error "missing Soft_Ver#"
    else .ok { header := h, sep := .comma }

/-- Cover from cover.rs. -/
structure Cover where
  form_type : String
  filer_committee_id : String
deriving DecidableEq

/-- The missing-field message of the `get` helper in cover.rs lines
33-41. -/
def coverMissingMsg (field_name : String) : String :=
  "no \x27" ++ field_name ++ "\x27 in cover line"

/-- `parse_cover_line` from cover.rs lines 19-31: parse the line with
the literal policy, read the form type from the record's line code and
the filer committee id from the stringified value of the field named
filer_committee_id_number; a missing field is a CoverParseError. -/
def parse_cover_line (m : Mappings) (fec_version : String) (line : List String) :
    Except Error Cover :=
  match literalParseLine m fec_version line with
  | .error e => .error e
  | .ok r =>
    match r.get_value "filer_committee_id_number" with
    | some v => .ok { form_type := r.line_code, filer_committee_id := v.display }
    | none => .error (.CoverParseError (coverMissingMsg "filer_committee_id_number"))

/-- The writers map of `MultiRecordWriter` (writers/base.rs line 40),
modelled as an association list; the Rust `HashMap` is keyed by
`RecordSchema` whose equality and hash use only the code.  A concrete
writer is modelled by the schema the factory received when creating it. -/
abbrev Writers := List (RecordSchema × RecordSchema)

/-- `MultiRecordWriter::get_writer` (writers/base.rs lines 53-58): the
entry for a schema equal (by code) to the given one when occupied,
otherwise a vacant insert of a writer freshly created from the given
schema.  Returns the writer the record is forwarded to plus the new
map. -/
def get_writer (ws : Writers) (schema : RecordSchema) : RecordSchema × Writers :=
  match ws.find? (fun kw => schemaKeyEq kw.1 schema) with
  | some kw => (kw.2, ws)
  | none => (schema, ws ++ [(schema, schema)])

/-- `MultiRecordWriter::write_record` (writers/base.rs lines 62-65):
look up the writer for the record's schema and forward the record to
it. -/
def write_record (ws : Writers) (r : Record) : RecordSchema × Writers :=
  get_writer ws r.schema

/-- The creator schema of the writer each record of a sequence is
forwarded to, in order. -/
def routeAll (ws : Writers) : List Record → List RecordSchema
  | [] => []
  | r :: rs => (write_record ws r).1 :: routeAll (write_record ws r).2 rs

/-- The writers map after a sequence of `write_record` calls. -/
def writersAfter (ws : Writers) : List Record → Writers
  | [] => ws
  | r :: rs => writersAfter (write_record ws r).2 rs

/-- Writer lookup by code (what the Rust map lookup amounts to, since
schema equality uses only the code). -/
def lookupW (ws : Writers) (c : String) : Option RecordSchema :=
  (ws.find? (fun kw => kw.1.code == c)).map (fun kw => kw.2)

/-- The schema of the first record of a sequence whose code is `c`. -/
def firstWith (c : String) (rs : List Record) : Option RecordSchema :=
  (rs.find? (fun r => r.schema.code == c)).map (fun r => r.schema)

/-- Boolean success test for an Except value. -/
def isOkE {ε α : Type} : Except ε α → Bool
  | .ok _ => true
  | .error _ => false

/-! ### General lemmas about the embedded operations -/

theorem dropWhile_keep_dropped (p : Char → Bool) (l : List Char) :
    ((l.dropWhile p).rdropWhile p).dropWhile p = (l.dropWhile p).rdropWhile p := by
  rw [List.dropWhile_eq_self_iff]
  intro hl
  obtain ⟨t, ht⟩ := List.rdropWhile_prefix p (l.dropWhile p)
  have hlen : ((l.dropWhile p).rdropWhile p).length ≤ (l.dropWhile p).length := by
    conv_rhs => rw [← ht]
    simp
  have hpos : 0 < (l.dropWhile p).length := lt_of_lt_of_le hl hlen
  have hget : (l.dropWhile p).get? 0 = ((l.dropWhile p).rdropWhile p).get? 0 := by
    conv_lhs => rw [← ht]
    exact List.get?_append hl
  rw [List.get?_eq_get hpos, List.get?_eq_get hl] at hget
  have heq : (l.dropWhile p).get ⟨0, hpos⟩ = ((l.dropWhile p).rdropWhile p).get ⟨0, hl⟩ :=
    Option.some.inj hget
  rw [← heq]
  exact List.dropWhile_get_zero_not p l hpos

/-- Trimming is idempotent, which is what makes the literal caller's
extra trim observationally invisible. -/
theorem strTrim_idem (s : String) : strTrim (strTrim s) = strTrim s := by
  show (⟨((((s.data.dropWhile isWs).rdropWhile isWs) : List Char).dropWhile isWs).rdropWhile isWs⟩ : String)
      = ⟨(s.data.dropWhile isWs).rdropWhile isWs⟩
  rw [dropWhile_keep_dropped, List.rdropWhile_idempotent]

/-- Parsing an absent raw always yields the absent variant. -/
theorem parse_to_value_none (t : ValueType) : t.parse_to_value none = .ok t.absent := rfl

/-- Parsing a whitespace-only raw yields the absent variant. -/
theorem parse_to_value_ws (t : ValueType) (raw : String) (h : strTrim raw = "") :
    t.parse_to_value (some raw) = .ok t.absent := by
  unfold ValueType.parse_to_value
  simp [h]

/-- Trimming is the operation's own responsibility: pre-trimming the raw
does not change the parse result. -/
theorem parse_to_value_trim (t : ValueType) (raw : String) :
    t.parse_to_value (some (strTrim raw)) = t.parse_to_value (some raw) := by
  unfold ValueType.parse_to_value
  simp only [strTrim_idem]

/-- The String type parses any preprocessed raw successfully, to the
String value of exactly that optional raw. -/
theorem parse_string_preprocessed (raw : String) :
    ValueType.string.parse_to_value (literalPreprocess raw)
      = .ok (.str (literalPreprocess raw)) := by
  unfold literalPreprocess
  by_cases h : strTrim raw = ""
  · simp [h, ValueType.parse_to_value, ValueType.absent]
  · simp only [h, if_false]
    unfold ValueType.parse_to_value
    simp [strTrim_idem, h]

/-- The coercing per-field handler never fails. -/
theorem coercingField_ok (t : ValueType) (raw : String) :
    ∃ v, coercingField t raw = .ok v := by
  unfold coercingField
  cases h : t.parse_to_value (some raw) with
  | ok v => exact ⟨v, rfl⟩
  | error e => exact ⟨t.absent, by rw [parse_to_value_none]⟩

/-- A failed coercion makes the coercing per-field handler produce the
absent variant of the field's type. -/
theorem coercingField_absorbs (t : ValueType) (raw : String) (err : String)
    (h : t.parse_to_value (some raw) = .error err) :
    coercingField t raw = .ok t.absent := by
  unfold coercingField
  rw [h, parse_to_value_none]

/-- The coercing loop never fails. -/
theorem coercingLoop_ok (line : List String) :
    ∀ fs : List FieldSchema, ∃ p, coercingLoop fs line = .ok p := by
  induction line with
  | nil => intro fs; exact ⟨([], fs), by cases fs <;> rfl⟩
  | cons raw rest ih =>
    intro fs
    cases fs with
    | nil =>
      obtain ⟨p, hp⟩ := ih []
      exact ⟨(Value.str (some raw) :: p.1, p.2), by unfold coercingLoop; rw [hp]⟩
    | cons f fs' =>
      obtain ⟨v, hv⟩ := coercingField_ok f.typ raw
      obtain ⟨p, hp⟩ := ih fs'
      exact ⟨(v :: p.1, p.2), by unfold coercingLoop; rw [hv, hp]⟩

/-- Raw fields beyond the schema's field list are pushed as String
values holding exactly the raw text. -/
theorem coercingLoop_extras (line : List String) :
    coercingLoop [] line = .ok (line.map (fun raw => Value.str (some raw)), []) := by
  induction line with
  | nil => rfl
  | cons raw rest ih => unfold coercingLoop; rw [ih]; rfl

/-- The padding pass never fails: each not-seen field contributes the
absent variant of its type. -/
theorem coercingPad_ok (fs : List FieldSchema) :
    coercingPad fs = .ok (fs.map (fun f => f.typ.absent)) := by
  induction fs with
  | nil => rfl
  | cons f rest ih => unfold coercingPad; rw [parse_to_value_none, ih]; rfl

/-- The coercing value computation never fails (per-field coercion
failures are absorbed, never surfaced). -/
theorem coercingParseValuesE_ok (schema : RecordSchema) (line : List String) :
    isOkE (coercingParseValuesE schema line) = true := by
  obtain ⟨⟨vs, leftover⟩, hp⟩ := coercingLoop_ok line schema.fields
  unfold coercingParseValuesE
  rw [hp]
  simp [coercingPad_ok, isOkE]

/-- With all fields String-typed (as the registry vends them), a raw
line longer than the field list makes the literal loop fail with
exactly the too-many-values error. -/
theorem literalLoop_too_many (line : List String) :
    ∀ fs : List FieldSchema, (∀ f ∈ fs, f.typ = ValueType.string) →
      fs.length < line.length →
      literalLoop fs line = .error (.RecordParseError "too many values") := by
  induction line with
  | nil => intro fs _ h; exact absurd h (by simp)
  | cons raw rest ih =>
    intro fs hstr h
    cases fs with
    | nil => rfl
    | cons f fs' =>
      have hf : f.typ = ValueType.string := hstr f (by simp)
      unfold literalLoop
      rw [hf, parse_string_preprocessed]
      rw [ih fs' (fun g hg => hstr g (by simp [hg])) (by simpa using h)]

/-- With all fields String-typed, a raw line no longer than the field
list parses literally into exactly the preprocessed String values. -/
theorem literalLoop_all_string (line : List String) :
    ∀ fs : List FieldSchema, (∀ f ∈ fs, f.typ = ValueType.string) →
      line.length ≤ fs.length →
      literalLoop fs line = .ok (line.map (fun raw => Value.str (literalPreprocess raw))) := by
  induction line with
  | nil => intro fs _ _; cases fs <;> rfl
  | cons raw rest ih =>
    intro fs hstr h
    cases fs with
    | nil => exact absurd h (by simp)
    | cons f fs' =>
      have hf : f.typ = ValueType.string := hstr f (by simp)
      unfold literalLoop
      rw [hf, parse_string_preprocessed]
      rw [ih fs' (fun g hg => hstr g (by simp [hg])) (by simpa using h)]
      rfl

/-- The inner lookup loop agrees with the spec-described inner search up
to the skip of the first field name. -/
theorem do_lookup_inner_spec (line_code version : String)
    (versions : List (Pattern × List String)) :
    do_lookup_inner line_code version versions =
      (specFirstMatchInner version versions).map
        (fun names => { code := line_code, fields := (names.drop 1).map mkStringField }) := by
  induction versions with
  | nil => rfl
  | cons e rest ih =>
    unfold do_lookup_inner specFirstMatchInner
    by_cases h : e.1 version
    · simp [h]
    · simp [h, ih]

/-- `do_lookup` agrees with the spec-described first-match search,
except that the schema drops the first name of the matched list. -/
theorem do_lookup_spec (m : Mappings) (version line_code : String) :
    do_lookup m version line_code =
      match specFirstMatch m version line_code with
      | some names => .ok { code := line_code, fields := (names.drop 1).map mkStringField }
      | none => .error (lookupErrMsg version line_code) := by
  induction m with
  | nil => rfl
  | cons e rest ih =>
    unfold do_lookup specFirstMatch
    by_cases h : e.1 line_code
    · simp only [h, if_true]
      rw [do_lookup_inner_spec]
      cases specFirstMatchInner version e.2 with
      | none => simpa using ih
      | some names => rfl
    · simp only [h, if_false]
      exact ih

/-- Every schema `do_lookup` vends has only String-typed fields. -/
theorem do_lookup_fields_string (m : Mappings) (version line_code : String)
    (schema : RecordSchema) (h : do_lookup m version line_code = .ok schema) :
    ∀ f ∈ schema.fields, f.typ = ValueType.string := by
  have hs := do_lookup_spec m version line_code
  rw [h] at hs
  cases hm : specFirstMatch m version line_code with
  | none => rw [hm] at hs; exact absurd hs (by simp)
  | some names =>
    rw [hm] at hs
    have : schema = { code := line_code, fields := (names.drop 1).map mkStringField } :=
      Except.ok.inj hs
    rw [this]
    intro f hf
    simp only [List.mem_map] at hf
    obtain ⟨n, _, rfl⟩ := hf
    rfl

/-- Unfolding of the cache lookup at a head entry with matching key. -/
theorem cacheGet_cons_true (e : (String × String) × RecordSchema) (σ : Cache)
    (key : String × String) (he : (e.1 == key) = true) :
    cacheGet (e :: σ) key = some e.2 := by
  simp [cacheGet, he]

/-- Unfolding of the cache lookup at a head entry with a different
key. -/
theorem cacheGet_cons_false (e : (String × String) × RecordSchema) (σ : Cache)
    (key : String × String) (he : (e.1 == key) = false) :
    cacheGet (e :: σ) key = cacheGet σ key := by
  simp [cacheGet, he]

/-- A cache hit survives appending further entries. -/
theorem cacheGet_append_of_some (σ τ : Cache) (key : String × String)
    (s : RecordSchema) (h : cacheGet σ key = some s) :
    cacheGet (σ ++ τ) key = some s := by
  induction σ with
  | nil => exact absurd h (by simp [cacheGet])
  | cons e σ' ih =>
    rw [List.cons_append]
    cases he : (e.1 == key) with
    | true =>
      rw [cacheGet_cons_true e _ key he] at h ⊢
      exact h
    | false =>
      rw [cacheGet_cons_false e _ key he] at h ⊢
      exact ih h

/-- A miss of the whole cache looks up the appended entries. -/
theorem cacheGet_append_of_none (σ τ : Cache) (key : String × String)
    (h : cacheGet σ key = none) :
    cacheGet (σ ++ τ) key = cacheGet τ key := by
  induction σ with
  | nil => rfl
  | cons e σ' ih =>
    rw [List.cons_append]
    cases he : (e.1 == key) with
    | true => rw [cacheGet_cons_true e _ key he] at h; exact absurd h (by simp)
    | false =>
      rw [cacheGet_cons_false e _ key he] at h ⊢
      exact ih h

/-- After a successful lookup, the cache holds the returned schema under
the exact (version, line code) key. -/
theorem lookup_schema_caches (m : Mappings) (σ σ' : Cache) (v c : String)
    (s : RecordSchema) (h : lookup_schema m σ v c = (.ok s, σ')) :
    cacheGet σ' (v, c) = some s := by
  unfold lookup_schema at h
  cases hc : cacheGet σ (v, c) with
  | some s0 =>
    rw [hc] at h
    have h1 : (Except.ok s0 : Except String RecordSchema) = .ok s := congrArg Prod.fst h
    have h2 : σ = σ' := congrArg Prod.snd h
    rw [← h2, hc]
    exact congrArg some (Except.ok.inj h1)
  | none =>
    rw [hc] at h
    cases hd : do_lookup m v c with
    | ok t =>
      rw [hd] at h
      have h1 : (Except.ok t : Except String RecordSchema) = .ok s := congrArg Prod.fst h
      have h2 : σ ++ [((v, c), t)] = σ' := congrArg Prod.snd h
      have ht : t = s := Except.ok.inj h1
      rw [← h2, cacheGet_append_of_none σ _ _ hc, ht]
      exact cacheGet_cons_true ((v, c), s) [] (v, c) (by simp)
    | error e =>
      rw [hd] at h
      have h1 : (Except.error e : Except String RecordSchema) = .ok s := congrArg Prod.fst h
      exact absurd h1 (by simp)

/-- A cached entry is never replaced or dropped by later lookups. -/
theorem lookup_schema_preserves (m : Mappings) (σ : Cache) (key : String × String)
    (s : RecordSchema) (h : cacheGet σ key = some s) (v' c' : String) :
    cacheGet (lookup_schema m σ v' c').2 key = some s := by
  unfold lookup_schema
  cases hc : cacheGet σ (v', c') with
  | some s0 => exact h
  | none =>
    cases hd : do_lookup m v' c' with
    | ok t => exact cacheGet_append_of_some σ _ key s h
    | error e => exact h

/-- A cached entry survives any sequence of later lookups. -/
theorem runLookups_preserves (m : Mappings) (key : String × String)
    (s : RecordSchema) (ks : List (String × String)) :
    ∀ σ : Cache, cacheGet σ key = some s →
      cacheGet (runLookups m σ ks) key = some s := by
  induction ks with
  | nil => intro σ h; exact h
  | cons k ks' ih =>
    intro σ h
    exact ih _ (lookup_schema_preserves m σ key s h k.1 k.2)

/-- A lookup that hits the cache returns the cached schema and leaves
the cache unchanged. -/
theorem lookup_schema_hit (m : Mappings) (σ : Cache) (v c : String)
    (s : RecordSchema) (h : cacheGet σ (v, c) = some s) :
    lookup_schema m σ v c = (.ok s, σ) := by
  unfold lookup_schema
  rw [h]

/-- First-some choice on options, the shape of both the map lookup with
fallback and the first-occurrence search. -/
def oOr (a b : Option RecordSchema) : Option RecordSchema :=
  match a with
  | some x => some x
  | none => b

theorem oOr_assoc (a b c : Option RecordSchema) :
    oOr (oOr a b) c = oOr a (oOr b c) := by
  cases a <;> rfl

/-- The codes of the writer-map keys. -/
def wcodes (ws : Writers) : List String := ws.map (fun kw => kw.1.code)

/-- Writer lookup unfolded at a cons cell with matching code. -/
theorem lookupW_cons_true (e : RecordSchema × RecordSchema) (ws : Writers)
    (c : String) (he : (e.1.code == c) = true) :
    lookupW (e :: ws) c = some e.2 := by
  simp [lookupW, he]

/-- Writer lookup unfolded at a cons cell with a different code. -/
theorem lookupW_cons_false (e : RecordSchema × RecordSchema) (ws : Writers)
    (c : String) (he : (e.1.code == c) = false) :
    lookupW (e :: ws) c = lookupW ws c := by
  simp [lookupW, he]

/-- The writer lookup for a schema's code is the Rust map lookup keyed
by code-only schema equality. -/
theorem lookupW_of_find (ws : Writers) (schema : RecordSchema) :
    lookupW ws schema.code
      = (ws.find? (fun kw => schemaKeyEq kw.1 schema)).map (fun kw => kw.2) := rfl

/-- Writer lookup after appending a fresh entry. -/
theorem lookupW_append_single (ws : Writers) (s : RecordSchema) (c : String) :
    lookupW (ws ++ [(s, s)]) c
      = oOr (lookupW ws c) (if s.code == c then some s else none) := by
  induction ws with
  | nil =>
    cases h : (s.code == c) with
    | true => simp [lookupW, h, oOr]
    | false => simp [lookupW, h, oOr]
  | cons e ws' ih =>
    rw [List.cons_append]
    cases he : (e.1.code == c) with
    | true =>
      rw [lookupW_cons_true e _ c he, lookupW_cons_true e _ c he]
      rfl
    | false =>
      rw [lookupW_cons_false e _ c he, lookupW_cons_false e _ c he]
      exact ih

/-- First-occurrence search unfolded at a cons cell. -/
theorem firstWith_cons (c : String) (r : Record) (rs : List Record) :
    firstWith c (r :: rs)
      = oOr (if r.schema.code == c then some r.schema else none) (firstWith c rs) := by
  cases h : (r.schema.code == c) with
  | true => simp [firstWith, h, oOr]
  | false => simp [firstWith, h, oOr]

/-- The route of each record in a sequence, over an arbitrary starting
map: an existing writer for the code wins, else the first record of the
sequence with that code creates the writer everyone with that code gets. -/
theorem routeAll_get? (rs : List Record) :
    ∀ (ws : Writers) (i : Nat),
      (routeAll ws rs).get? i
        = (rs.get? i).bind
            (fun r => oOr (lookupW ws r.schema.code) (firstWith r.schema.code rs)) := by
  induction rs with
  | nil => intro ws i; simp [routeAll]
  | cons r rs' ih =>
    intro ws i
    cases i with
    | zero =>
      simp only [routeAll, List.get?_cons_zero, Option.some_bind]
      rw [firstWith_cons]
      unfold write_record get_writer
      cases hf : ws.find? (fun kw => schemaKeyEq kw.1 r.schema) with
      | some kw =>
        have hl : lookupW ws r.schema.code = some kw.2 := by
          rw [lookupW_of_find, hf]; rfl
        simp [hl, oOr]
      | none =>
        have hl : lookupW ws r.schema.code = none := by
          rw [lookupW_of_find, hf]; rfl
        simp [hl, oOr]
    | succ i' =>
      simp only [routeAll, List.get?_cons_succ]
      rw [ih ((write_record ws r).2) i']
      cases hg : rs'.get? i' with
      | none => rfl
      | some r2 =>
        simp only [Option.some_bind]
        unfold write_record get_writer
        cases hf : ws.find? (fun kw => schemaKeyEq kw.1 r.schema) with
        | some kw =>
          simp only [hf]
          rw [firstWith_cons]
          cases hc : (r.schema.code == r2.schema.code) with
          | true =>
            have heq : r.schema.code = r2.schema.code := by simpa using hc
            have hl : lookupW ws r2.schema.code = some kw.2 := by
              rw [← heq, lookupW_of_find, hf]; rfl
            simp [hl, oOr]
          | false => simp [hc, oOr]
        | none =>
          simp only [hf]
          rw [lookupW_append_single, oOr_assoc, firstWith_cons]

/-- The writer-map keys stay pairwise distinct in code. -/
theorem writersAfter_nodup (rs : List Record) :
    ∀ ws : Writers, (wcodes ws).Nodup → (wcodes (writersAfter ws rs)).Nodup := by
  induction rs with
  | nil => intro ws h; exact h
  | cons r rs' ih =>
    intro ws h
    unfold writersAfter write_record get_writer
    cases hf : ws.find? (fun kw => schemaKeyEq kw.1 r.schema) with
    | some kw => exact ih ws h
    | none =>
      apply ih
      have hnotin : r.schema.code ∉ wcodes ws := by
        intro hmem
        obtain ⟨kw, hkw, hc⟩ := List.mem_map.mp hmem
        have := List.find?_eq_none.mp hf kw hkw
        exact this (by simp [schemaKeyEq, hc])

      have : wcodes (ws ++ [(r.schema, r.schema)]) = wcodes ws ++ [r.schema.code] := by
        simp [wcodes]
      rw [this]
      simp only [List.nodup_append]
      exact ⟨h, List.nodup_singleton _, by simpa using hnotin⟩

/-- Splitting on a character yields one more part than the character's
occurrence count. -/
theorem splitOnChar_length (sep : Char) (l : List Char) :
    (splitOnChar sep l).length = l.count sep + 1 := by
  induction l with
  | nil => rfl
  | cons c rest ih =>
    unfold splitOnChar
    by_cases h : c = sep
    · subst h
      simp only [if_true, List.length_cons, ih]
      rw [List.count_cons_self]
    · simp only [h, if_false]
      cases hs : splitOnChar sep rest with
      | nil => rw [hs] at ih; simp at ih
      | cons p ps =>
        rw [hs] at ih
        simp only [List.length_cons] at ih ⊢
        rw [List.count_cons_of_ne (Ne.symm h), ih]

/-- A header k=v line with any number of equals signs other than one
fails with the more-than-one-equals message. -/
theorem parse_legacy_kv_fails (line : String) (h : line.data.count '=' ≠ 1) :
    parse_legacy_kv line = .error (legacyKvErrMsg line) := by
  unfold parse_legacy_kv
  have hlen : (splitStr '=' line).length ≠ 2 := by
    unfold splitStr
    rw [List.length_map, splitOnChar_length]
    omega
  cases hs : splitStr '=' line with
  | nil => rfl
  | cons a t =>
    cases t with
    | nil => rfl
    | cons b t' =>
      cases t' with
      | nil => rw [hs] at hlen; simp at hlen
      | cons c t'' => rfl

/-- A header k=v line with exactly one equals sign parses to its trimmed
key and value. -/
theorem parse_legacy_kv_ok (line k v : String)
    (h : splitStr '=' line = [k, v]) :
    parse_legacy_kv line = .ok (strTrim k, strTrim v) := by
  unfold parse_legacy_kv
  rw [h]

/-- A bad k=v line aborts the whole legacy loop with the
more-than-one-equals message, no matter what well-formed lines preceded
it. -/
theorem legacyLoop_bad (bad : String) (rest : List String)
    (hbt : isLegacyTerminator bad = false)
    (hbs : isScheduleCounts bad = false)
    (hbc : bad.data.count '=' ≠ 1) :
    ∀ (pre : List String) (n : Nat) (h : Header),
      n + pre.length < 100 →
      (∀ l ∈ pre, isLegacyTerminator l = false ∧
          (isScheduleCounts l = true ∨ isOkE (parse_legacy_kv l) = true)) →
      legacyLoop h n (pre ++ bad :: rest) = .error (legacyKvErrMsg bad) := by
  intro pre
  induction pre with
  | nil =>
    intro n h hn _
    rw [List.nil_append]
    unfold legacyLoop
    rw [hbt, hbs, parse_legacy_kv_fails bad hbc]
    simp only [Bool.false_eq_true, if_false]
    have : ¬ (n + 1 > 100) := by omega
    simp [this]
  | cons l pre' ih =>
    intro n h hn hpre
    obtain ⟨hlt, hlk⟩ := hpre l (by simp)
    rw [List.cons_append]
    unfold legacyLoop
    rw [hlt]
    simp only [Bool.false_eq_true, if_false]
    have : ¬ (n + 1 > 100) := by simp at hn; omega
    simp only [this, if_false]
    cases hlk with
    | inl hsched =>
      rw [hsched]
      simp only [if_true]
      exact ih (n + 1) h (by simp at hn ⊢; omega)
        (fun x hx => hpre x (by simp [hx]))
    | inr hkv =>
      cases hks : parse_legacy_kv l with
      | error e => rw [hks] at hkv; simp [isOkE] at hkv
      | ok kv =>
        by_cases hsched : isScheduleCounts l = true
        · rw [hsched]
          simp only [if_true]
          exact ih (n + 1) h (by simp at hn ⊢; omega)
            (fun x hx => hpre x (by simp [hx]))
        · rw [Bool.not_eq_true] at hsched
          rw [hsched]
          simp only [Bool.false_eq_true, if_false]
          exact ih (n + 1) (legacyApplyKv h kv) (by simp at hn ⊢; omega)
            (fun x hx => hpre x (by simp [hx]))

/-! ### Claim theorems -/

/-- Claim C1 (code bug): the claim says the coercing policy's resulting
value count always equals the schema's field count and the internal
assertion never fails; but on a raw line with more fields than the
schema the loop pushes the extras as String values and the function's
own assertion then fails.  Evaluation at the failing input: a schema
with one field and a line with two values after the line code makes
`CoercingLineParser::parse_values` panic. -/
theorem claimC1_assert_fails :
    coercingParseValues { code := "F3X", fields := [mkStringField "a"] } ["x", "y"]
      = PResult.panicked := by decide

/-- Claim C2 (counterexample): as stated, every raw field beyond the
schema's field list is emitted as a String value; but at this concrete
input the function panics on its final length assertion instead of
returning the values, so no record carrying the extras is ever
produced. -/
theorem claimC2_counterexample :
    coercingParseValues { code := "SA", fields := [mkStringField "a"] } ["p", "q"]
      = PResult.panicked
    ∧ PResult.panicked ≠ PResult.ok [Value.str (some "p"), Value.str (some "q")] :=
  ⟨by decide, by decide⟩

/-- Claim C2 (amended): under the coercing policy a failed per-field
coercion yields the absent variant of the field's type rather than an
error, and the value computation never returns an error; raw fields
beyond the schema's field list are pushed onto the values list as
String values, although the subsequent length assertion then fails, so
a line with extras never yields a Record. -/
theorem claimC2_amended (schema : RecordSchema) (line : List String)
    (t : ValueType) (raw err : String)
    (h : t.parse_to_value (some raw) = .error err) :
    isOkE (coercingParseValuesE schema line) = true
    ∧ coercingField t raw = .ok t.absent
    ∧ coercingLoop [] line = .ok (line.map (fun r => Value.str (some r)), []) :=
  ⟨coercingParseValuesE_ok schema line,
    coercingField_absorbs t raw err h,
    coercingLoop_extras line⟩

/-- Claim C2 witness: the amended claim at a one-field schema, a
one-value line and a failing integer coercion. -/
theorem claimC2_witness :
    isOkE (coercingParseValuesE { code := "SB", fields := [mkStringField "b"] } ["u"]) = true
    ∧ coercingField ValueType.integer "zz" = .ok ValueType.integer.absent
    ∧ coercingLoop [] ["u"] = .ok (["u"].map (fun r => Value.str (some r)), []) :=
  claimC2_amended { code := "SB", fields := [mkStringField "b"] } ["u"]
    ValueType.integer "zz" "invalid integer: zz" rfl

/-- Concrete mappings table for claim C3: one line-code pattern with one
version entry whose name list is form_type, a. -/
def mC3 : Mappings :=
  [(fun s => s == "F3", [(fun v => v == "8.0", ["form_type", "a"])])]

/-- Claim C3 (counterexample): the claim says the resolved schema has
one FieldSchema per name of the matched list; but `do_lookup` skips the
first name, so the matched list form_type, a resolves to a schema with
the single field a. -/
theorem claimC3_counterexample :
    do_lookup mC3 "8.0" "F3" = .ok { code := "F3", fields := [mkStringField "a"] }
    ∧ ({ code := "F3", fields := [mkStringField "a"] } : RecordSchema)
        ≠ { code := "F3", fields := ["form_type", "a"].map mkStringField } :=
  ⟨rfl, by decide⟩

/-- Claim C3 (amended): for every (version, line code) on which the
lookup succeeds, the fields of the returned RecordSchema are exactly
the field names of the first matching (line-code pattern, version
pattern) entry of the mappings table excluding its first name, in
order, one FieldSchema per remaining name, each assigned the String
type. -/
theorem claimC3_amended (m : Mappings) (version line_code : String)
    (names : List String) (h : specFirstMatch m version line_code = some names) :
    do_lookup m version line_code
      = .ok { code := line_code, fields := (names.drop 1).map mkStringField } := by
  have hs := do_lookup_spec m version line_code
  rw [h] at hs
  exact hs

/-- Claim C3 witness: the amended claim at the concrete table. -/
theorem claimC3_witness :
    do_lookup mC3 "8.0" "F3"
      = .ok { code := "F3", fields := (["form_type", "a"].drop 1).map mkStringField } :=
  claimC3_amended mC3 "8.0" "F3" ["form_type", "a"] rfl

/-- Claim C4 (counterexample): the claim says whitespace trimming is
never performed by the callers of parse_to_value; but the literal
parser's call site itself trims the raw (parse.rs lines 58-61), so the
value it hands over differs from the raw field. -/
theorem claimC4_counterexample : literalPreprocess " x " ≠ some " x " := by decide

/-- Claim C4 (amended): parse_to_value itself trims and maps an absent
or whitespace-only raw to the absent variant of the target type; the
coercing path passes raws unmodified while the literal path pre-trims
at the call site, but that pre-trimming is observationally redundant:
for every type and raw the literal call site's argument parses to the
same result as the raw itself. -/
theorem claimC4_amended (t : ValueType) (raw : String) :
    t.parse_to_value (literalPreprocess raw) = t.parse_to_value (some raw)
    ∧ (strTrim raw = "" → t.parse_to_value (some raw) = .ok t.absent)
    ∧ t.parse_to_value none = .ok t.absent := by
  refine ⟨?_, fun h => parse_to_value_ws t raw h, parse_to_value_none t⟩
  unfold literalPreprocess
  by_cases h : strTrim raw = ""
  · rw [if_pos h, parse_to_value_none, parse_to_value_ws t raw h]
  · rw [if_neg h, parse_to_value_trim]

/-- Claim C4 witness: the amended claim at the date type and a
whitespace-only raw. -/
theorem claimC4_witness :
    ValueType.date.parse_to_value (literalPreprocess "  ")
        = ValueType.date.parse_to_value (some "  ")
    ∧ (strTrim "  " = "" →
        ValueType.date.parse_to_value (some "  ") = .ok ValueType.date.absent)
    ∧ ValueType.date.parse_to_value none = .ok ValueType.date.absent :=
  claimC4_amended ValueType.date "  "

/-- Claim C5 (confirmed): for every (version, line code) pair that
resolves successfully, every later call to the schema lookup — after
any interleaved sequence of other lookups — returns the same schema the
first call returned, and leaves the cache unchanged: the resolved
schema is memoized under the exact (version, line code) key and never
replaced.  The embedding threads the process-wide cache as explicit
state under the sequential execution model. -/
theorem claimC5 (m : Mappings) (σ0 σ1 : Cache) (v c : String) (s : RecordSchema)
    (ks : List (String × String)) (h : lookup_schema m σ0 v c = (.ok s, σ1)) :
    lookup_schema m (runLookups m σ1 ks) v c = (.ok s, runLookups m σ1 ks) :=
  lookup_schema_hit m _ v c s
    (runLookups_preserves m (v, c) s ks σ1 (lookup_schema_caches m σ0 σ1 v c s h))

/-- Concrete mappings table for the claim C5 witness. -/
def mC5 : Mappings :=
  [(fun s => s == "F9", [(fun v => v == "8.0", ["form_type", "x"])])]

/-- The schema the C5 table vends for version 8.0 and line code F9. -/
def s5 : RecordSchema := { code := "F9", fields := [mkStringField "x"] }

/-- Claim C5 witness: a first successful lookup from the empty cache,
followed by a repeat lookup and an unrelated failing lookup. -/
theorem claimC5_witness :
    lookup_schema mC5 (runLookups mC5 [(("8.0", "F9"), s5)] [("8.0", "F9"), ("7.0", "ZZ")])
        "8.0" "F9"
      = (.ok s5, runLookups mC5 [(("8.0", "F9"), s5)] [("8.0", "F9"), ("7.0", "ZZ")]) :=
  claimC5 mC5 [] [(("8.0", "F9"), s5)] "8.0" "F9" s5 [("8.0", "F9"), ("7.0", "ZZ")] rfl

/-- Claim C6 (counterexample): the claim says that when the second
field equals FEC the header fields handed to the line parser begin at
index 2; but `parse_nonlegacy_header` hands the entire split line
(beginning at index 0) to the line parser. -/
theorem claimC6_counterexample :
    nonlegacyRecordArg "HDR,FEC,8.3,NGP8,8" = ["HDR", "FEC", "8.3", "NGP8", "8"]
    ∧ nonlegacyRecordArg "HDR,FEC,8.3,NGP8,8"
        ≠ (nonlegacyParts "HDR,FEC,8.3,NGP8,8").drop 2 :=
  ⟨by decide, by decide⟩

/-- Claim C6 (amended): for every modern header line, the detected
delimiter is the 0x1C unit separator when the raw line contains 0x1C
and the comma otherwise; after splitting on it, when the field at index
1 equals FEC the version is read from index 2 (an error when there is
no index 2), otherwise from index 1; and the fields handed to the line
parser are the whole split line beginning at index 0 (the line parser
consumes index 0 as the line code). -/
theorem claimC6_amended (line : String) (p0 p1 : String) (rest : List String)
    (h : nonlegacyParts line = p0 :: p1 :: rest) :
    Sep.detect line.data
      = (if line.data.contains (Char.ofNat 28) then Sep.ascii28 else Sep.comma)
    ∧ (p1 = "FEC" → rest ≠ [] →
        nonlegacyVersion (nonlegacyParts line) = .ok (rest.headD ""))
    ∧ (p1 = "FEC" → rest = [] →
        nonlegacyVersion (nonlegacyParts line) = .error "less than 3 parts in header")
    ∧ (p1 ≠ "FEC" → nonlegacyVersion (nonlegacyParts line) = .ok p1)
    ∧ nonlegacyRecordArg line = p0 :: p1 :: rest := by
  refine ⟨rfl, ?_, ?_, ?_, h⟩
  · intro hfec hne
    rw [h]
    unfold nonlegacyVersion
    cases rest with
    | nil => exact absurd rfl hne
    | cons p2 rest' => simp [hfec]
  · intro hfec hnil
    rw [h, hnil]
    unfold nonlegacyVersion
    simp [hfec]
  · intro hfec
    rw [h]
    unfold nonlegacyVersion
    simp [hfec]

/-- Claim C6 witness: the amended claim on the modern header line
HDR,FEC,8.3,NGP8,8. -/
theorem claimC6_witness :
    Sep.detect "HDR,FEC,8.3,NGP8,8".data
      = (if "HDR,FEC,8.3,NGP8,8".data.contains (Char.ofNat 28)
          then Sep.ascii28 else Sep.comma)
    ∧ ("FEC" = "FEC" → (["8.3", "NGP8", "8"] : List String) ≠ [] →
        nonlegacyVersion (nonlegacyParts "HDR,FEC,8.3,NGP8,8")
          = .ok ((["8.3", "NGP8", "8"] : List String).headD ""))
    ∧ ("FEC" = "FEC" → (["8.3", "NGP8", "8"] : List String) = [] →
        nonlegacyVersion (nonlegacyParts "HDR,FEC,8.3,NGP8,8")
          = .error "less than 3 parts in header")
    ∧ ("FEC" ≠ "FEC" →
        nonlegacyVersion (nonlegacyParts "HDR,FEC,8.3,NGP8,8") = .ok "FEC")
    ∧ nonlegacyRecordArg "HDR,FEC,8.3,NGP8,8"
        = "HDR" :: "FEC" :: ["8.3", "NGP8", "8"] :=
  claimC6_amended "HDR,FEC,8.3,NGP8,8" "HDR" "FEC" ["8.3", "NGP8", "8"] (by decide)

/-- Claim C7 (confirmed): under the literal policy, against any schema
the registry vends (all of whose fields are String-typed), a raw line
with more fields after the line code than the schema has fields fails
with a RecordParseError, and a raw line with fewer fields succeeds with
a values list shorter than the schema's field list (one String value
per raw field). -/
theorem claimC7 (m : Mappings) (version code : String) (schema : RecordSchema)
    (line : List String) (h : do_lookup m version code = .ok schema) :
    (schema.fields.length < line.length →
      literalParseValues schema line = .error (.RecordParseError "too many values"))
    ∧ (line.length < schema.fields.length →
      literalParseValues schema line
          = .ok (line.map (fun raw => Value.str (literalPreprocess raw)))
      ∧ (line.map (fun raw => Value.str (literalPreprocess raw))).length
          < schema.fields.length) := by
  have hstr := do_lookup_fields_string m version code schema h
  constructor
  · intro hlt
    exact literalLoop_too_many line schema.fields hstr hlt
  · intro hlt
    refine ⟨literalLoop_all_string line schema.fields hstr (le_of_lt hlt), ?_⟩
    rw [List.length_map]
    exact hlt

/-- Concrete mappings table for the claim C7 witness. -/
def mC7 : Mappings :=
  [(fun s => s == "F7", [(fun v => v == "8.0", ["form_type", "a", "b"])])]

/-- Claim C7 witness: a schema with two String fields, a line with one
field (the truncated-filing case) and the too-many-values direction
left as a vacuous implication. -/
theorem claimC7_witness :
    (({ code := "F7", fields := [mkStringField "a", mkStringField "b"] }
        : RecordSchema).fields.length < (["x"] : List String).length →
      literalParseValues
          { code := "F7", fields := [mkStringField "a", mkStringField "b"] } ["x"]
        = .error (.RecordParseError "too many values"))
    ∧ ((["x"] : List String).length
        < ({ code := "F7", fields := [mkStringField "a", mkStringField "b"] }
            : RecordSchema).fields.length →
      literalParseValues
          { code := "F7", fields := [mkStringField "a", mkStringField "b"] } ["x"]
          = .ok (["x"].map (fun raw => Value.str (literalPreprocess raw)))
      ∧ (["x"].map (fun raw => Value.str (literalPreprocess raw))).length
          < ({ code := "F7", fields := [mkStringField "a", mkStringField "b"] }
              : RecordSchema).fields.length) :=
  claimC7 mC7 "8.0" "F7"
    { code := "F7", fields := [mkStringField "a", mkStringField "b"] } ["x"] rfl

/-- Claim C8 (confirmed): the cover is parsed with the literal policy;
on success of the underlying literal line parse, the cover's form type
equals the record's line code, which is the first raw field; the filer
committee id is the stringified value of the field named
filer_committee_id_number; and when the record yields no value for that
field name, the result is a CoverParseError. -/
theorem literalParseLine_cons (m : Mappings) (version code : String)
    (rest : List String) :
    literalParseLine m version (code :: rest)
      = match do_lookup m version code with
        | .error _ => .error (.SchemaError version code)
        | .ok schema =>
          match literalParseValues schema rest with
          | .error e => .error e
          | .ok vs => .ok { line_code := code, schema := schema, values := vs } := rfl

theorem claimC8 (m : Mappings) (version : String) (line : List String)
    (r : Record) (v : Value) (h : literalParseLine m version line = .ok r) :
    line.head? = some r.line_code
    ∧ (r.get_value "filer_committee_id_number" = some v →
        parse_cover_line m version line
          = .ok { form_type := r.line_code, filer_committee_id := v.display })
    ∧ (r.get_value "filer_committee_id_number" = none →
        parse_cover_line m version line
          = .error (.CoverParseError (coverMissingMsg "filer_committee_id_number"))) := by
  have hc : parse_cover_line m version line
      = (match r.get_value "filer_committee_id_number" with
         | some v => Except.ok { form_type := r.line_code, filer_committee_id := v.display }
         | none => Except.error
             (Error.CoverParseError (coverMissingMsg "filer_committee_id_number"))) := by
    unfold parse_cover_line
    rw [h]
  refine ⟨?_, ?_, ?_⟩
  · cases line with
    | nil => exact absurd h (by simp [literalParseLine])
    | cons code rest =>
      rw [literalParseLine_cons] at h
      split at h
      · exact absurd h (by simp)
      · split at h
        · exact absurd h (by simp)
        · have hr := Except.ok.inj h
          rw [← hr]
          rfl
  · intro hget
    rw [hc, hget]
  · intro hget
    rw [hc, hget]

/-- Concrete mappings table for the claim C8 witness (spec scenario
S3). -/
def mC8 : Mappings :=
  [(fun s => s == "F3XN",
    [(fun v => v == "8.3", ["form_type", "filer_committee_id_number"])])]

/-- The record the C8 witness line parses to. -/
def r8 : Record :=
  { line_code := "F3XN",
    schema := { code := "F3XN", fields := [mkStringField "filer_committee_id_number"] },
    values := [Value.str (some "C00101766")] }

/-- Claim C8 witness: the cover line F3XN,C00101766 against the S3
schema. -/
theorem claimC8_witness :
    (["F3XN", "C00101766"] : List String).head? = some r8.line_code
    ∧ (r8.get_value "filer_committee_id_number" = some (Value.str (some "C00101766")) →
        parse_cover_line mC8 "8.3" ["F3XN", "C00101766"]
          = .ok { form_type := r8.line_code,
                  filer_committee_id := (Value.str (some "C00101766")).display })
    ∧ (r8.get_value "filer_committee_id_number" = none →
        parse_cover_line mC8 "8.3" ["F3XN", "C00101766"]
          = .error (.CoverParseError (coverMissingMsg "filer_committee_id_number"))) :=
  claimC8 mC8 "8.3" ["F3XN", "C00101766"] r8 (Value.str (some "C00101766")) rfl

/-- Claim C9 (confirmed): the multi-writer's map never holds two
writers whose schemas share a code — the key codes stay pairwise
distinct — and every record whose schema has code c, even one with a
different field list, is forwarded to the single writer created from
the first record seen with code c (a writer is identified by the schema
the factory received). -/
theorem claimC9 (rs : List Record) :
    (wcodes (writersAfter [] rs)).Nodup
    ∧ ∀ i : Nat,
        (routeAll [] rs).get? i
          = (rs.get? i).bind (fun r => firstWith r.schema.code rs) := by
  constructor
  · exact writersAfter_nodup rs [] (by simp [wcodes])
  · intro i
    rw [routeAll_get? rs [] i]
    cases rs.get? i with
    | none => rfl
    | some r => rfl

/-- Claim C10 (confirmed): during legacy header parsing, every line
before the terminator that is not a schedule-counts line must split on
the equals sign into exactly two parts: a line with zero equals signs,
or with two or more, aborts the entire header parse with an error, and
the error message always claims there was more than one equals sign,
also in the zero case. -/
theorem claimC10 (pre : List String) (bad : String) (rest : List String)
    (h1 : pre.length < 100)
    (h2 : ∀ l ∈ pre, isLegacyTerminator l = false ∧
        (isScheduleCounts l = true ∨ isOkE (parse_legacy_kv l) = true))
    (h3 : isLegacyTerminator bad = false)
    (h4 : isScheduleCounts bad = false)
    (h5 : bad.data.count '=' ≠ 1) :
    parse_legacy_header (pre ++ bad :: rest) = .error (legacyKvErrMsg bad)
    ∧ "more than one".data.isPrefixOf (legacyKvErrMsg bad).data = true := by
  constructor
  · unfold parse_legacy_header
    rw [legacyLoop_bad bad rest h3 h4 h5 pre 0 Header.init (by omega) h2]
  · apply (List.isPrefixOf_iff_prefix).mpr
    unfold legacyKvErrMsg
    rw [String.data_append, String.data_append]
    exact List.IsPrefix.trans (by decide)
      (List.IsPrefix.trans (List.prefix_append _ _) (List.prefix_append _ _))

/-- Claim C10 witness: a well-formed key-value line followed by a line
with zero equals signs. -/
theorem claimC10_witness :
    parse_legacy_header (["FEC_Ver_# = 2.02"] ++ "Soft_Name" :: ["/* End Header"])
      = .error (legacyKvErrMsg "Soft_Name")
    ∧ "more than one".data.isPrefixOf (legacyKvErrMsg "Soft_Name").data = true :=
  claimC10 ["FEC_Ver_# = 2.02"] "Soft_Name" ["/* End Header"]
    (by decide) (by decide) (by decide) (by decide) (by decide)

end Feco3
